import Mathlib

/-!
# WordCounterBot (`src/Bot.go`)

A shallow embedding of the counting store, the message handler, the two slash
commands and the snapshot loading of `src/Bot.go`, followed by the properties
proved about them.

Conventions of the embedding.

* Go strings that reach the program are valid UTF-8 (they come out of
  `encoding/json`), so a string is its sequence of code points and byte-wise
  substring search coincides with search on code points.
* `uint64` is `Nat`; `Count++` is written `(c + 1) % 2 ^ 64`.
* A Go `map[string]User` is an association list with pairwise distinct keys.
  The order in which a `range` loop visits it is not fixed by the language, so
  the code that ranges over the map receives the visiting order as an argument.
* Calls into the outside world (reaction request, file write, reply, log line)
  are returned as a list of `Effect`s in program order; whether such a call
  fails is an input of the handler.
* A handler that runs into a Go panic (a nil dereference) returns `none`: the
  panic is not recovered, it ends the process before any further call.
* Functions of the Go standard library whose result the code depends on
  (`unicode.ToLower`, `json.Marshal`, `json.Unmarshal`, `sort.Slice`) are
  arguments of the definitions that call them.
-/

namespace WordCounterBot

/-! ## Data model (Bot.go, lines 15-30) -/

/-- The Go struct `User`; `Count` is a `uint64`. -/
structure User where
  Name : String
  Count : Nat
deriving DecidableEq, Repr

/-- A non-nil `map[string]User`. -/
abbrev UserMap := AList (fun _ : String => User)

/-- The Go struct `DB` with a `Users` map that is not nil, which is the state in
which the handlers find it (line 70 precedes their registration). -/
structure DB where
  Users : UserMap
  Words : List String
  Emoji : String
  Token : String
deriving DecidableEq

/-- The Go struct `DB` in general: `Users` is `none` for a nil map, which is
what the zero value has and what `json.Unmarshal` leaves when the key is missing
or `null`. -/
structure RawDB where
  Users : Option UserMap
  Words : List String
  Emoji : String
  Token : String
deriving DecidableEq

/-- The zero value of `DB` (line 52, `Store{}`). -/
def RawDB.zero : RawDB := ⟨none, [], "", ""⟩

/-- The width of `User.Count`. -/
def uint64Size : Nat := 2 ^ 64

/-- The fields of `discordgo.User` that the handlers read. -/
structure Author where
  ID : String
  Username : String
  Bot : Bool
  System : Bool
deriving DecidableEq

/-- The fields of a `discordgo.MessageCreate` event that the handler reads. -/
structure MessageCreate where
  ID : String
  ChannelID : String
  Content : String
  Author : Author
deriving DecidableEq

/-- Calls that leave the process, in the order the code issues them. -/
inductive Effect where
  | reactionAdd (channelID messageID emoji : String)
  | writeFile (name data : String)
  | respond (content : String)
  | logLine (text : String)
  deriving DecidableEq

/-! ## Standard library -/

/-- The function `strings.ToLower` on valid UTF-8: `unicode.ToLower` applied to
every code point. -/
def stringsToLower (unicodeToLower : Char → Char) (s : String) : String :=
  ⟨s.data.map unicodeToLower⟩

/-- The function `strings.HasPrefix` on code point sequences. -/
def hasPrefixChars : List Char → List Char → Bool
  | _, [] => true
  | [], _ :: _ => false
  | c :: s, d :: p => c == d && hasPrefixChars s p

/-- Search of `sub` at every position of `s`, left to right. -/
def containsChars : List Char → List Char → Bool
  | [], sub => sub.isEmpty
  | c :: s, sub => hasPrefixChars (c :: s) sub || containsChars s sub

/-- The function `strings.Contains(s, substr)`. -/
def stringsContains (s substr : String) : Bool :=
  containsChars s.data substr.data

/-- The call `json.Marshal(store.Data)`. On a `DB` (strings, a `uint64`, a
slice of strings, a map with string keys) the encoder has no failing case, so
the result is always the encoding `jsonEncode d`, with a nil error. -/
def jsonMarshal (jsonEncode : DB → String) (d : DB) : Except String String :=
  Except.ok (jsonEncode d)

/-! ## The message handler (Bot.go, lines 161-193) -/

/-- Lines 170-176: the record of the author after `usr.Count++` and
`usr.Name = i.Author.Username`, starting from `User{}` when there is none. -/
def bumpUser (users : UserMap) (a : Author) : User :=
  let usr := match users.lookup a.ID with
    | some u => u
    | none => ⟨"", 0⟩
  { usr with Count := (usr.Count + 1) % uint64Size, Name := a.Username }

/-- Lines 170-190, the body run for the first word that matches. `reactErr`
and `writeErr` are the errors returned by `MessageReactionAdd` and by
`os.WriteFile` (`none` for nil). -/
def onMatch (jsonEncode : DB → String) (reactErr writeErr : Option String)
    (db : DB) (i : MessageCreate) : DB × List Effect :=
  let db1 : DB := { db with Users := db.Users.insert i.Author.ID (bumpUser db.Users i.Author) }
  let react : List Effect :=
    Effect.reactionAdd i.ChannelID i.ID db1.Emoji ::
      (match reactErr with
        | some e => [Effect.logLine e]
        | none => [])
  match jsonMarshal jsonEncode db1 with
  | Except.error e => (db1, react ++ [Effect.logLine e])
  | Except.ok rankingsJson =>
    (db1, react ++ Effect.writeFile "data.json" rankingsJson ::
      (match writeErr with
        | some e => [Effect.logLine e]
        | none => []))

/-- Lines 168-192: the loop over `store.Data.Words`, left at the first word
that is contained in the lowercased message. -/
def scanWords (unicodeToLower : Char → Char) (jsonEncode : DB → String)
    (reactErr writeErr : Option String) (db : DB) (i : MessageCreate) (message : String) :
    List String → DB × List Effect
  | [] => (db, [])
  | word :: rest =>
    if stringsContains message (stringsToLower unicodeToLower word) then
      onMatch jsonEncode reactErr writeErr db i
    else
      scanWords unicodeToLower jsonEncode reactErr writeErr db i message rest

/-- The `MessageCreate` handler, lines 161-193: the store after the handler
and the calls it made. -/
def messageCreate (unicodeToLower : Char → Char) (jsonEncode : DB → String)
    (reactErr writeErr : Option String) (db : DB) (i : MessageCreate) : DB × List Effect :=
  if i.Author.Bot || i.Author.System then
    (db, [])
  else
    let message := stringsToLower unicodeToLower i.Content
    scanWords unicodeToLower jsonEncode reactErr writeErr db i message db.Words

/-! ## The slash commands (Bot.go, lines 98-160) -/

/-- The fields of an option of a command invocation that the handler reads:
its `Type`, and the user id that `UserValue(s).ID` returns for it. -/
structure CommandOption where
  OptionType : Nat
  UserValueID : String
deriving DecidableEq

/-- The discordgo constant `ApplicationCommandOptionUser`. -/
def ApplicationCommandOptionUser : Nat := 6

/-- The fields of a `discordgo.InteractionCreate` event of a command invocation
that the handlers read: the command name and options of
`ApplicationCommandData()`, and `Member`, given by its `User.ID`. `Member` is
`none` for the nil pointer, which is what an invocation outside a guild carries
(the commands are registered globally on line 91). -/
structure InteractionCreate where
  Name : String
  Options : List CommandOption
  Member : Option String
deriving DecidableEq

/-- The verb `%d` of `fmt.Sprintf` on a `uint64`: the decimal numeral. -/
def sprintD (n : Nat) : String := Nat.repr n

/-- Lines 102-109: the reply of `count` with a user option. -/
def countSpecifiedMessage (db : DB) (id : String) : String :=
  match db.Users.lookup id with
  | some data => data.Name ++ " said the magic word " ++ sprintD data.Count ++ " times"
  | none => "The specified user has never said it!"

/-- Lines 118-124: the reply of `count` about the invoking member. Line 121
reads `i.Member.User.ID` without a nil check: on a nil `Member` it panics, and
no reply is made. -/
def countSelfMessage (db : DB) (member : Option String) : Option String :=
  match member with
  | none => none
  | some id =>
    match db.Users.lookup id with
    | some data => some ("You've said the magic word " ++ sprintD data.Count ++ " times")
    | none => some "You've never said it!"

/-- Lines 100-130: the content of the reply of the `count` command, `none` when
the handler panics before it replies. -/
def countMessage (db : DB) (i : InteractionCreate) : Option String :=
  match i.Options with
  | [opt] =>
    if opt.OptionType = ApplicationCommandOptionUser then
      some (countSpecifiedMessage db opt.UserValueID)
    else
      countSelfMessage db i.Member
  | _ => countSelfMessage db i.Member

/-- The `count` handler, lines 99-131: it holds the read lock only, and answers
with one `InteractionRespond`, unless it panics. -/
def countCommand (db : DB) (i : InteractionCreate) : Option (DB × List Effect) :=
  match countMessage db i with
  | some message => some (db, [Effect.respond message])
  | none => none

/-- The comparison handed to `sort.Slice` on line 141. -/
def byCountDesc (a b : User) : Bool := decide (a.Count > b.Count)

/-- The line appended for one user on line 144, `"%s: %d\n"`. -/
def leaderboardLine (user : User) : String :=
  user.Name ++ ": " ++ sprintD user.Count ++ "\n"

/-- Lines 133-146: the content of the reply of the `leaderboard` command.
`visit` is the order in which the `range` loop of line 138 meets the entries of
`store.Data.Users`. -/
def leaderboardMessage (sortSlice : (User → User → Bool) → List User → List User)
    (db : DB) (visit : List (Sigma fun _ : String => User)) : String :=
  if db.Users.entries.length ≠ 0 then
    let arr := visit.foldl (fun arr kv => arr ++ [kv.2]) []
    let arr := sortSlice byCountDesc arr
    arr.foldl (fun message user => message ++ leaderboardLine user) ""
  else
    "Leaderboard empty, what a nice server!"

/-- The `leaderboard` handler, lines 132-153. -/
def leaderboardCommand (sortSlice : (User → User → Bool) → List User → List User)
    (db : DB) (visit : List (Sigma fun _ : String => User)) : DB × List Effect :=
  (db, [Effect.respond (leaderboardMessage sortSlice db visit)])

/-- The `InteractionCreate` handler, lines 156-160: the lookup of the command
name in `commandHandlers`; an unknown name does nothing. The result is `none`
when the handler that is called panics. -/
def interactionCreate (sortSlice : (User → User → Bool) → List User → List User)
    (db : DB) (i : InteractionCreate) (visit : List (Sigma fun _ : String => User)) :
    Option (DB × List Effect) :=
  if i.Name = "count" then countCommand db i
  else if i.Name = "leaderboard" then some (leaderboardCommand sortSlice db visit)
  else some (db, [])

/-! ## `sort.Slice` -/

/-- What `sort.Slice` asks of its `less`: a strict weak ordering. -/
structure StrictWeak (less : User → User → Bool) : Prop where
  asymm : ∀ a b, less a b = true → less b a = false
  negTrans : ∀ a b c, less a b = false → less b c = false → less a c = false

/-- What `sort.Slice` promises: the slice is rearranged, and afterwards no
element is `less` than one before it. Elements that compare equal may come out
in any order. -/
def SortSliceSpec (sortSlice : (User → User → Bool) → List User → List User) : Prop :=
  ∀ less arr, StrictWeak less →
    (sortSlice less arr).Perm arr ∧ (sortSlice less arr).Pairwise (fun a b => less b a = false)

/-- The inner loop of `insertionSortLessFunc`: `x` travels left from the end of
the sorted part (given last element first) while it is `less` than its left
neighbour. -/
def insertBack (less : User → User → Bool) (x : User) : List User → List User
  | [] => [x]
  | y :: ys => if less x y then y :: insertBack less x ys else x :: y :: ys

/-- The routine `insertionSortLessFunc`, which is what `sort.Slice` runs on a
slice of at most 12 elements. -/
def insertionSortLessFunc (less : User → User → Bool) (arr : List User) : List User :=
  (arr.foldl (fun sortedRev x => insertBack less x sortedRev) []).reverse

/-! ## Snapshot loading (Bot.go, lines 52-70) -/

/-- How the block of lines 52-70 ends: in `log.Fatalln`, or with the value of
`store.Data` after line 70. -/
inductive Startup where
  | fatal (text : String)
  | loaded (store : RawDB) (effects : List Effect)
  deriving DecidableEq

/-- Lines 68-70: a nil `Users` is replaced by `make(map[string]User)`. -/
def makeUsers (raw : RawDB) : RawDB :=
  match raw.Users with
  | none => { raw with Users := some ∅ }
  | some _ => raw

/-- Lines 52-70. `readFile` is the result of `os.ReadFile("data.json")`,
`jsonUnmarshal data` what decoding `data` into the zero `DB` gives, and
`backupErr` the error of writing `backup.json`. -/
def loadStore (jsonUnmarshal : String → Except String RawDB)
    (readFile : Except String String) (backupErr : Option String) : Startup :=
  match readFile with
  | Except.error err => Startup.loaded (makeUsers RawDB.zero) [Effect.logLine err]
  | Except.ok data =>
    match jsonUnmarshal data with
    | Except.error err => Startup.fatal err
    | Except.ok raw =>
      Startup.loaded (makeUsers raw)
        (Effect.writeFile "backup.json" data ::
          (match backupErr with
            | some e => [Effect.logLine e]
            | none => []))

/-- The store the handlers run on: defined when `Users` is not nil. On a nil
map the lookups of the handlers would still answer, but the assignment of line
176 would panic. -/
def RawDB.toDB (raw : RawDB) : Option DB :=
  match raw.Users with
  | some users => some ⟨users, raw.Words, raw.Emoji, raw.Token⟩
  | none => none

/-! ## Event sequences -/

/-- An inbound event together with what the outside world answers while it is
handled. -/
inductive Event where
  | message (i : MessageCreate) (reactErr writeErr : Option String)
  | command (i : InteractionCreate) (visit : List (Sigma fun _ : String => User))

/-- One event handled under the store lock; `none` when the handler panics. -/
def step (unicodeToLower : Char → Char) (jsonEncode : DB → String)
    (sortSlice : (User → User → Bool) → List User → List User) (db : DB) :
    Event → Option (DB × List Effect)
  | Event.message i reactErr writeErr =>
    some (messageCreate unicodeToLower jsonEncode reactErr writeErr db i)
  | Event.command i visit => interactionCreate sortSlice db i visit

/-- The stores seen along a sequence of events: the initial one, then the one
after each event, up to the event whose handler panics, if there is one (the
process ends there). -/
def trace (unicodeToLower : Char → Char) (jsonEncode : DB → String)
    (sortSlice : (User → User → Bool) → List User → List User) :
    DB → List Event → List DB
  | db, [] => [db]
  | db, e :: es =>
    match step unicodeToLower jsonEncode sortSlice db e with
    | some out => db :: trace unicodeToLower jsonEncode sortSlice out.1 es
    | none => [db]

/-- The count that the `count` command would report for `id`. -/
def countOf (db : DB) (id : String) : Option Nat :=
  (db.Users.lookup id).map User.Count

/-! ## Classification of calls, and data for the worked examples -/

/-- Whether a call is a reaction request. -/
def Effect.isReaction : Effect → Bool
  | Effect.reactionAdd _ _ _ => true
  | _ => false

/-- Whether a call is a file write. -/
def Effect.isWrite : Effect → Bool
  | Effect.writeFile _ _ => true
  | _ => false

/-- A sample encoder for the worked examples: it lists the users. -/
def sampleEncode (d : DB) : String :=
  String.join (d.Users.entries.map fun kv => kv.1 ++ "=" ++ kv.2.Name ++ ";")

/-- The users A with count 5, B with count 9 and C with count 2. -/
def abcUsers : UserMap :=
  (((∅ : UserMap).insert "1" ⟨"A", 5⟩).insert "2" ⟨"B", 9⟩).insert "3" ⟨"C", 2⟩

/-- A store with three users and two trigger words. -/
def sampleDB : DB :=
  { Users := abcUsers
    Words := ["banana", "Bread"]
    Emoji := "x"
    Token := "t" }

/-- A message of user `1`, now called `Ann`, that contains both trigger words. -/
def sampleMessage : MessageCreate :=
  { ID := "m", ChannelID := "c", Content := "I love BaNaNa bread",
    Author := { ID := "1", Username := "Ann", Bot := false, System := false } }

/-- A store in which two users have the same count. -/
def tieDB : DB :=
  { Users := ((∅ : UserMap).insert "1" ⟨"A", 5⟩).insert "2" ⟨"B", 5⟩
    Words := ["banana"]
    Emoji := "x"
    Token := "t" }

/-- A store in which user `1` has the largest count a `uint64` holds. -/
def fullDB : DB :=
  { Users := (∅ : UserMap).insert "1" ⟨"A", 18446744073709551615⟩
    Words := ["banana"]
    Emoji := "x"
    Token := "t" }

/-- A sample decoder for the worked examples: it accepts the empty JSON object
only, which leaves every field at its zero value. -/
def sampleUnmarshal (data : String) : Except String RawDB :=
  if data = "\x7b\x7d" then Except.ok RawDB.zero
  else Except.error "invalid character"

/-! # Properties -/

/-! ### Substring search and the scan of the trigger words -/

theorem hasPrefixChars_iff (s p : List Char) : hasPrefixChars s p = true ↔ p <+: s := by
  induction s generalizing p with
  | nil => cases p <;> simp [hasPrefixChars]
  | cons c s ih =>
    cases p with
    | nil => simp [hasPrefixChars]
    | cons d p =>
      simp only [hasPrefixChars, Bool.and_eq_true, beq_iff_eq, ih, List.cons_prefix_cons]
      constructor
      · rintro ⟨h1, h2⟩; exact ⟨h1.symm, h2⟩
      · rintro ⟨h1, h2⟩; exact ⟨h1.symm, h2⟩

theorem containsChars_iff (s sub : List Char) : containsChars s sub = true ↔ sub <:+: s := by
  induction s with
  | nil => cases sub <;> simp [containsChars]
  | cons c s ih =>
    simp only [containsChars, Bool.or_eq_true, hasPrefixChars_iff, ih, List.infix_cons_iff]

theorem stringsContains_iff (s sub : String) :
    stringsContains s sub = true ↔ sub.data <:+: s.data :=
  containsChars_iff s.data sub.data

theorem scanWords_of_match (lower : Char → Char) (enc : DB → String)
    (re we : Option String) (db : DB) (i : MessageCreate) (message : String)
    (words : List String)
    (h : ∃ w ∈ words, (stringsToLower lower w).data <:+: message.data) :
    scanWords lower enc re we db i message words = onMatch enc re we db i := by
  induction words with
  | nil => simp at h
  | cons word rest ih =>
    simp only [scanWords]
    by_cases hw : stringsContains message (stringsToLower lower word) = true
    · simp [hw]
    · simp only [hw, if_false, Bool.false_eq_true]
      apply ih
      obtain ⟨w, hmem, hin⟩ := h
      rcases List.mem_cons.1 hmem with rfl | hmem
      · exact absurd ((stringsContains_iff _ _).2 hin) hw
      · exact ⟨w, hmem, hin⟩

theorem scanWords_of_noMatch (lower : Char → Char) (enc : DB → String)
    (re we : Option String) (db : DB) (i : MessageCreate) (message : String)
    (words : List String)
    (h : ¬ ∃ w ∈ words, (stringsToLower lower w).data <:+: message.data) :
    scanWords lower enc re we db i message words = (db, []) := by
  induction words with
  | nil => rfl
  | cons word rest ih =>
    simp only [scanWords]
    have hw : ¬ stringsContains message (stringsToLower lower word) = true := fun hc =>
      h ⟨word, List.mem_cons_self _ _, (stringsContains_iff _ _).1 hc⟩
    simp only [hw, if_false, Bool.false_eq_true]
    exact ih fun ⟨w, hmem, hin⟩ => h ⟨w, List.mem_cons_of_mem _ hmem, hin⟩

theorem messageCreate_of_match (lower : Char → Char) (enc : DB → String)
    (re we : Option String) (db : DB) (i : MessageCreate)
    (hbot : i.Author.Bot = false) (hsys : i.Author.System = false)
    (h : ∃ w ∈ db.Words,
      (stringsToLower lower w).data <:+: (stringsToLower lower i.Content).data) :
    messageCreate lower enc re we db i = onMatch enc re we db i := by
  simp only [messageCreate, hbot, hsys, Bool.or_self, Bool.false_eq_true, if_false]
  exact scanWords_of_match lower enc re we db i _ db.Words h

theorem messageCreate_of_noMatch (lower : Char → Char) (enc : DB → String)
    (re we : Option String) (db : DB) (i : MessageCreate)
    (h : i.Author.Bot = true ∨ i.Author.System = true ∨ ¬ ∃ w ∈ db.Words,
      (stringsToLower lower w).data <:+: (stringsToLower lower i.Content).data) :
    messageCreate lower enc re we db i = (db, []) := by
  unfold messageCreate
  by_cases hb : (i.Author.Bot || i.Author.System) = true
  · simp [hb]
  · simp only [hb, if_false, Bool.false_eq_true]
    rcases h with h | h | h
    · simp [h] at hb
    · simp [h] at hb
    · exact scanWords_of_noMatch lower enc re we db i _ db.Words h

theorem onMatch_fst (enc : DB → String) (re we : Option String) (db : DB) (i : MessageCreate) :
    (onMatch enc re we db i).1 =
      { db with Users := db.Users.insert i.Author.ID (bumpUser db.Users i.Author) } := by
  simp [onMatch, jsonMarshal]

theorem bumpUser_eq (users : UserMap) (a : Author) :
    bumpUser users a =
      ⟨a.Username, (((users.lookup a.ID).map User.Count).getD 0 + 1) % uint64Size⟩ := by
  unfold bumpUser
  cases users.lookup a.ID <;> simp

/-- C1: a human sender's message that contains a trigger word changes the
sender's record to the current username and the previous count plus one (zero
when there was no record, the count being below 2^64-1), whatever the number
of trigger words in it and whether or not the reaction request and the
snapshot write succeed; no other record and no other field changes. -/
theorem messageCreate_increments_by_one (unicodeToLower : Char → Char)
    (jsonEncode : DB → String) (reactErr writeErr : Option String) (db : DB)
    (i : MessageCreate)
    (hbot : i.Author.Bot = false) (hsys : i.Author.System = false)
    (hmatch : ∃ w ∈ db.Words, (stringsToLower unicodeToLower w).data <:+:
      (stringsToLower unicodeToLower i.Content).data)
    (hroom : (countOf db i.Author.ID).getD 0 < 2 ^ 64 - 1) :
    (messageCreate unicodeToLower jsonEncode reactErr writeErr db i).1.Users.lookup i.Author.ID
        = some ⟨i.Author.Username, (countOf db i.Author.ID).getD 0 + 1⟩
      ∧ (∀ id, id ≠ i.Author.ID →
          (messageCreate unicodeToLower jsonEncode reactErr writeErr db i).1.Users.lookup id
            = db.Users.lookup id)
      ∧ (messageCreate unicodeToLower jsonEncode reactErr writeErr db i).1.Words = db.Words
      ∧ (messageCreate unicodeToLower jsonEncode reactErr writeErr db i).1.Emoji = db.Emoji
      ∧ (messageCreate unicodeToLower jsonEncode reactErr writeErr db i).1.Token = db.Token := by
  rw [messageCreate_of_match unicodeToLower jsonEncode reactErr writeErr db i hbot hsys hmatch,
    onMatch_fst]
  refine ⟨?_, ?_, rfl, rfl, rfl⟩
  · simp only [AList.lookup_insert, bumpUser_eq]
    have hlt : (countOf db i.Author.ID).getD 0 + 1 < uint64Size := by
      have : uint64Size = 2 ^ 64 := rfl
      omega
    have := Nat.mod_eq_of_lt hlt
    simp only [countOf] at this
    rw [this]
    rfl
  · intro id hid
    exact AList.lookup_insert_ne hid

/-- The theorem `messageCreate_increments_by_one` on a message with two trigger
words, with the reaction request failing. -/
theorem messageCreate_increments_by_one_witness :
    (∃ w ∈ sampleDB.Words, (stringsToLower Char.toLower w).data <:+:
        (stringsToLower Char.toLower sampleMessage.Content).data)
      ∧ (messageCreate Char.toLower sampleEncode (some "denied") none sampleDB
          sampleMessage).1.Users.lookup "1" = some ⟨"Ann", 6⟩ :=
  ⟨⟨"banana", by decide, by decide⟩,
    (messageCreate_increments_by_one Char.toLower sampleEncode (some "denied") none sampleDB
      sampleMessage rfl rfl ⟨"banana", by decide, by decide⟩ (by decide)).1⟩

theorem succ_mod_ne (c : Nat) : (c + 1) % uint64Size ≠ c := by
  have h : uint64Size = 18446744073709551616 := by decide
  rw [h]
  omega

theorem lower_ascii_map (unicodeToLower : Char → Char)
    (hascii : ∀ c : Char, c.toNat < 128 → unicodeToLower c = c.toLower)
    (l : List Char) (hl : ∀ c ∈ l, c.toNat < 128) :
    l.map unicodeToLower = l.map Char.toLower :=
  List.map_congr_left fun c hc => hascii c (hl c hc)

theorem counted_iff_triggered (unicodeToLower : Char → Char)
    (jsonEncode : DB → String) (reactErr writeErr : Option String) (db : DB)
    (i : MessageCreate)
    (hbot : i.Author.Bot = false) (hsys : i.Author.System = false) :
    countOf (messageCreate unicodeToLower jsonEncode reactErr writeErr db i).1 i.Author.ID
        = some (((countOf db i.Author.ID).getD 0 + 1) % uint64Size)
      ↔ ∃ w ∈ db.Words, w.data.map unicodeToLower <:+: i.Content.data.map unicodeToLower := by
  constructor
  · intro hcount
    by_contra hno
    rw [messageCreate_of_noMatch unicodeToLower jsonEncode reactErr writeErr db i
      (Or.inr (Or.inr hno))] at hcount
    cases hc : countOf db i.Author.ID with
    | none => simp [hc] at hcount
    | some c =>
      simp only [hc, Option.getD_some, Option.some.injEq] at hcount
      exact succ_mod_ne c hcount.symm
  · intro hmatch
    rw [messageCreate_of_match unicodeToLower jsonEncode reactErr writeErr db i hbot hsys hmatch,
      onMatch_fst]
    simp [countOf, AList.lookup_insert, bumpUser_eq]

theorem triggered_ascii (unicodeToLower : Char → Char)
    (hascii : ∀ c : Char, c.toNat < 128 → unicodeToLower c = c.toLower)
    (words : List String) (content : String)
    (hcontent : ∀ c ∈ content.data, c.toNat < 128)
    (hwords : ∀ w ∈ words, ∀ c ∈ w.data, c.toNat < 128) :
    (∃ w ∈ words, w.data.map unicodeToLower <:+: content.data.map unicodeToLower)
      ↔ ∃ w ∈ words, w.data.map Char.toLower <:+: content.data.map Char.toLower := by
  rw [lower_ascii_map unicodeToLower hascii content.data hcontent]
  constructor
  · rintro ⟨w, hw, hin⟩
    rw [lower_ascii_map unicodeToLower hascii w.data (hwords w hw)] at hin
    exact ⟨w, hw, hin⟩
  · rintro ⟨w, hw, hin⟩
    rw [← lower_ascii_map unicodeToLower hascii w.data (hwords w hw)] at hin
    exact ⟨w, hw, hin⟩

theorem triggered_recase (words words2 : List String) (text : List Char)
    (hwords : List.Forall₂
      (fun w w2 : String => w.data.map Char.toLower = w2.data.map Char.toLower) words words2) :
    (∃ w ∈ words2, w.data.map Char.toLower <:+: text)
      ↔ ∃ w ∈ words, w.data.map Char.toLower <:+: text := by
  induction hwords with
  | nil => simp
  | cons hhead _ ih =>
    simp only [List.mem_cons, exists_eq_or_imp, ih, hhead]

/-- C2: for a human sender the message is counted (the sender's stored count
goes up by one) exactly when the code points of some configured word, each
mapped by `unicode.ToLower`, occur as a contiguous run in the code points of the
text, each mapped likewise. When `unicode.ToLower` is ASCII lowercasing on ASCII
and text and words are ASCII, this is containment of the ASCII-lowercased word
in the ASCII-lowercased text, so a second message and word list that differ from
the first in letter case only are counted or not alike. The word "banana" makes
"I love BaNaNa bread" count, and does not make "I love BANDANA bread" count. -/
theorem messageCreate_counts_iff_substring (unicodeToLower : Char → Char)
    (jsonEncode : DB → String) (reactErr writeErr : Option String) (db : DB)
    (i : MessageCreate)
    (hbot : i.Author.Bot = false) (hsys : i.Author.System = false) :
    (countOf (messageCreate unicodeToLower jsonEncode reactErr writeErr db i).1 i.Author.ID
        = some (((countOf db i.Author.ID).getD 0 + 1) % uint64Size)
      ↔ ∃ w ∈ db.Words, w.data.map unicodeToLower <:+: i.Content.data.map unicodeToLower)
    ∧ ((∀ c : Char, c.toNat < 128 → unicodeToLower c = c.toLower) →
        (∀ c ∈ i.Content.data, c.toNat < 128) →
        (∀ w ∈ db.Words, ∀ c ∈ w.data, c.toNat < 128) →
        (countOf (messageCreate unicodeToLower jsonEncode reactErr writeErr db i).1 i.Author.ID
            = some (((countOf db i.Author.ID).getD 0 + 1) % uint64Size)
          ↔ ∃ w ∈ db.Words, w.data.map Char.toLower <:+: i.Content.data.map Char.toLower)
        ∧ ∀ (db2 : DB) (i2 : MessageCreate),
            i2.Author.Bot = false → i2.Author.System = false →
            (∀ c ∈ i2.Content.data, c.toNat < 128) →
            (∀ w ∈ db2.Words, ∀ c ∈ w.data, c.toNat < 128) →
            i2.Content.data.map Char.toLower = i.Content.data.map Char.toLower →
            List.Forall₂
              (fun w w2 : String => w.data.map Char.toLower = w2.data.map Char.toLower)
              db.Words db2.Words →
            (countOf (messageCreate unicodeToLower jsonEncode reactErr writeErr db2 i2).1
                i2.Author.ID
                = some (((countOf db2 i2.Author.ID).getD 0 + 1) % uint64Size)
              ↔ countOf (messageCreate unicodeToLower jsonEncode reactErr writeErr db i).1
                  i.Author.ID
                = some (((countOf db i.Author.ID).getD 0 + 1) % uint64Size)))
    ∧ ((∀ c : Char, c.toNat < 128 → unicodeToLower c = c.toLower) →
        db.Words = ["banana"] → i.Content = "I love BaNaNa bread" →
        countOf (messageCreate unicodeToLower jsonEncode reactErr writeErr db i).1 i.Author.ID
          = some (((countOf db i.Author.ID).getD 0 + 1) % uint64Size))
    ∧ ((∀ c : Char, c.toNat < 128 → unicodeToLower c = c.toLower) →
        db.Words = ["banana"] → i.Content = "I love BANDANA bread" →
        messageCreate unicodeToLower jsonEncode reactErr writeErr db i = (db, [])) := by
  have key := counted_iff_triggered unicodeToLower jsonEncode reactErr writeErr db i hbot hsys
  refine ⟨key, ?_, ?_, ?_⟩
  · intro hascii hcontent hwords
    have hA := key.trans (triggered_ascii unicodeToLower hascii db.Words i.Content hcontent hwords)
    refine ⟨hA, ?_⟩
    intro db2 i2 hbot2 hsys2 hcontent2 hwords2 hsame hrecase
    have hB := (counted_iff_triggered unicodeToLower jsonEncode reactErr writeErr db2 i2
      hbot2 hsys2).trans
      (triggered_ascii unicodeToLower hascii db2.Words i2.Content hcontent2 hwords2)
    rw [hB, hA, hsame]
    exact triggered_recase db.Words db2.Words _ hrecase
  · intro hascii hwords hcontent
    apply key.2
    refine ⟨"banana", by simp [hwords], ?_⟩
    rw [hcontent, lower_ascii_map unicodeToLower hascii "banana".data (by decide),
      lower_ascii_map unicodeToLower hascii "I love BaNaNa bread".data (by decide)]
    decide
  · intro hascii hwords hcontent
    apply messageCreate_of_noMatch
    right
    right
    rintro ⟨w, hw, hin⟩
    rw [hwords, List.mem_singleton] at hw
    subst hw
    simp only [stringsToLower, hcontent] at hin
    rw [lower_ascii_map unicodeToLower hascii "banana".data (by decide),
      lower_ascii_map unicodeToLower hascii "I love BANDANA bread".data (by decide)] at hin
    revert hin
    decide

/-- The theorem `messageCreate_counts_iff_substring` on the trigger word
"banana": the message "I love BaNaNa bread" is counted, and so is the message
"i LOVE bAnAnA BREAD" with the word written "BANANA"; the message
"I love BANDANA bread" is not. -/
theorem messageCreate_counts_iff_substring_witness :
    countOf (messageCreate Char.toLower sampleEncode none none
        { sampleDB with Words := ["banana"] } sampleMessage).1 "1" = some 6
      ∧ countOf (messageCreate Char.toLower sampleEncode none none
        { sampleDB with Words := ["BANANA"] }
        { sampleMessage with Content := "i LOVE bAnAnA BREAD" }).1 "1" = some 6
      ∧ messageCreate Char.toLower sampleEncode none none
          { sampleDB with Words := ["banana"] }
          { sampleMessage with Content := "I love BANDANA bread" }
        = ({ sampleDB with Words := ["banana"] }, []) :=
  ⟨(messageCreate_counts_iff_substring Char.toLower sampleEncode none none
      { sampleDB with Words := ["banana"] } sampleMessage rfl rfl).2.2.1
      (fun _ _ => rfl) rfl rfl,
    (((messageCreate_counts_iff_substring Char.toLower sampleEncode none none
      { sampleDB with Words := ["banana"] } sampleMessage rfl rfl).2.1
      (fun _ _ => rfl) (by decide) (by decide)).2
      { sampleDB with Words := ["BANANA"] }
      { sampleMessage with Content := "i LOVE bAnAnA BREAD" } rfl rfl (by decide) (by decide)
      (by decide) (List.Forall₂.cons (by decide) List.Forall₂.nil)).2
      ((messageCreate_counts_iff_substring Char.toLower sampleEncode none none
        { sampleDB with Words := ["banana"] } sampleMessage rfl rfl).2.2.1
        (fun _ _ => rfl) rfl rfl),
    (messageCreate_counts_iff_substring Char.toLower sampleEncode none none
      { sampleDB with Words := ["banana"] }
      { sampleMessage with Content := "I love BANDANA bread" } rfl rfl).2.2.2
      (fun _ _ => rfl) rfl rfl⟩

/-- C3: when the sender is a bot or a system actor, or when no configured word
matches, the handler returns the store as it was and makes no call at all (no
snapshot write, no reaction). -/
theorem messageCreate_ignores (unicodeToLower : Char → Char)
    (jsonEncode : DB → String) (reactErr writeErr : Option String) (db : DB)
    (i : MessageCreate)
    (h : i.Author.Bot = true ∨ i.Author.System = true ∨
      ¬ ∃ w ∈ db.Words, (stringsToLower unicodeToLower w).data <:+:
          (stringsToLower unicodeToLower i.Content).data) :
    messageCreate unicodeToLower jsonEncode reactErr writeErr db i = (db, []) :=
  messageCreate_of_noMatch unicodeToLower jsonEncode reactErr writeErr db i h

/-- The theorem `messageCreate_ignores` on a message of a bot that contains a
trigger word. -/
theorem messageCreate_ignores_witness :
    messageCreate Char.toLower sampleEncode none none sampleDB
      { sampleMessage with Author := { sampleMessage.Author with Bot := true } }
      = (sampleDB, []) :=
  messageCreate_ignores Char.toLower sampleEncode none none sampleDB
    { sampleMessage with Author := { sampleMessage.Author with Bot := true } } (Or.inl rfl)

/-- C8: a matching message of a human sender makes exactly one reaction request,
with the configured symbol, and exactly one file write, of the encoded store
after the increment to `data.json`; this is so for every outcome of the reaction
request and of the write. -/
theorem messageCreate_one_reaction_one_write (unicodeToLower : Char → Char)
    (jsonEncode : DB → String) (reactErr writeErr : Option String) (db : DB)
    (i : MessageCreate)
    (hbot : i.Author.Bot = false) (hsys : i.Author.System = false)
    (hmatch : ∃ w ∈ db.Words, (stringsToLower unicodeToLower w).data <:+:
      (stringsToLower unicodeToLower i.Content).data) :
    (messageCreate unicodeToLower jsonEncode reactErr writeErr db i).2.filter Effect.isReaction
        = [Effect.reactionAdd i.ChannelID i.ID db.Emoji]
      ∧ (messageCreate unicodeToLower jsonEncode reactErr writeErr db i).2.filter Effect.isWrite
        = [Effect.writeFile "data.json"
            (jsonEncode (messageCreate unicodeToLower jsonEncode reactErr writeErr db i).1)] := by
  rw [messageCreate_of_match unicodeToLower jsonEncode reactErr writeErr db i hbot hsys hmatch]
  cases reactErr <;> cases writeErr <;>
    simp [onMatch, jsonMarshal, Effect.isReaction, Effect.isWrite]

/-- The theorem `messageCreate_one_reaction_one_write` with both the reaction
request and the write failing. -/
theorem messageCreate_one_reaction_one_write_witness :
    (messageCreate Char.toLower sampleEncode (some "denied") (some "disk full") sampleDB
        sampleMessage).2.filter Effect.isReaction = [Effect.reactionAdd "c" "m" "x"]
      ∧ (messageCreate Char.toLower sampleEncode (some "denied") (some "disk full") sampleDB
        sampleMessage).2.filter Effect.isWrite
        = [Effect.writeFile "data.json" "1=Ann;3=C;2=B;"] := by
  have h := messageCreate_one_reaction_one_write Char.toLower sampleEncode (some "denied")
    (some "disk full") sampleDB sampleMessage rfl rfl ⟨"banana", by decide, by decide⟩
  refine ⟨h.1, h.2.trans ?_⟩
  decide

/-! ### Sorting -/

theorem insertBack_perm (less : User → User → Bool) (x : User) (l : List User) :
    (insertBack less x l).Perm (x :: l) := by
  induction l with
  | nil => exact List.Perm.refl _
  | cons y ys ih =>
    simp only [insertBack]
    split
    · exact ((List.Perm.cons y ih).trans (List.Perm.swap x y ys))
    · exact List.Perm.refl _

theorem insertBack_pairwise (less : User → User → Bool) (hless : StrictWeak less) (x : User)
    (l : List User) (hl : l.Pairwise (fun a b => less a b = false)) :
    (insertBack less x l).Pairwise (fun a b => less a b = false) := by
  induction l with
  | nil => simp [insertBack]
  | cons y ys ih =>
    rw [List.pairwise_cons] at hl
    simp only [insertBack]
    by_cases hxy : less x y = true
    · simp only [hxy, if_true]
      rw [List.pairwise_cons]
      refine ⟨?_, ih hl.2⟩
      intro z hz
      rcases List.mem_cons.1 ((insertBack_perm less x ys).mem_iff.1 hz) with rfl | hz
      · exact hless.asymm _ _ hxy
      · exact hl.1 z hz
    · simp only [hxy, if_false, Bool.false_eq_true]
      have hxy2 : less x y = false := by simpa using hxy
      rw [List.pairwise_cons]
      refine ⟨?_, List.pairwise_cons.2 hl⟩
      intro z hz
      rcases List.mem_cons.1 hz with rfl | hz
      · exact hxy2
      · exact hless.negTrans _ _ _ hxy2 (hl.1 z hz)

theorem insertLoop_spec (less : User → User → Bool) (hless : StrictWeak less)
    (arr acc : List User) (hacc : acc.Pairwise (fun a b => less a b = false)) :
    (arr.foldl (fun sortedRev x => insertBack less x sortedRev) acc).Perm (arr ++ acc) ∧
      (arr.foldl (fun sortedRev x => insertBack less x sortedRev) acc).Pairwise
        (fun a b => less a b = false) := by
  induction arr generalizing acc with
  | nil => exact ⟨List.Perm.refl _, hacc⟩
  | cons x xs ih =>
    simp only [List.foldl_cons]
    obtain ⟨hp, hs⟩ := ih (insertBack less x acc) (insertBack_pairwise less hless x acc hacc)
    refine ⟨hp.trans ?_, hs⟩
    exact ((List.Perm.append_left xs (insertBack_perm less x acc)).trans
      List.perm_middle)

theorem insertionSortLessFunc_spec : SortSliceSpec insertionSortLessFunc := by
  intro less arr hless
  obtain ⟨hp, hs⟩ := insertLoop_spec less hless arr [] List.Pairwise.nil
  constructor
  · exact (List.reverse_perm _).trans (by simpa using hp)
  · exact List.pairwise_reverse.2 hs

theorem byCountDesc_strictWeak : StrictWeak byCountDesc := by
  constructor
  · intro a b h
    simp only [byCountDesc, decide_eq_true_eq, decide_eq_false_iff_not] at *
    omega
  · intro a b c h1 h2
    simp only [byCountDesc, decide_eq_true_eq, decide_eq_false_iff_not] at *
    omega

/-- Two arrangements of the same records by descending count are equal when no
two records have the same count. -/
theorem ranked_unique (l1 l2 : List User) (hp : l1.Perm l2)
    (h1 : l1.Pairwise (fun a b => a.Count ≥ b.Count))
    (h2 : l2.Pairwise (fun a b => a.Count ≥ b.Count))
    (hnd : (l1.map User.Count).Nodup) : l1 = l2 := by
  induction l1 generalizing l2 with
  | nil => exact (List.nil_perm.1 hp).symm
  | cons a t1 ih =>
    cases l2 with
    | nil => exact absurd (List.perm_nil.1 hp) (List.cons_ne_nil _ _)
    | cons b t2 =>
      rw [List.pairwise_cons] at h1 h2
      rw [List.map_cons, List.nodup_cons] at hnd
      have hab : a = b := by
        by_contra hne
        have ha : a ∈ t2 := by
          rcases List.mem_cons.1 (hp.mem_iff.1 (List.mem_cons_self a t1)) with h | h
          · exact absurd h hne
          · exact h
        have hb : b ∈ t1 := by
          rcases List.mem_cons.1 (hp.mem_iff.2 (List.mem_cons_self b t2)) with h | h
          · exact absurd h.symm hne
          · exact h
        have h3 := h1.1 b hb
        have h4 := h2.1 a ha
        have h5 : a.Count = b.Count := Nat.le_antisymm h4 h3
        exact hnd.1 (List.mem_map.2 ⟨b, hb, h5.symm⟩)
      subst hab
      rw [ih t2 (List.Perm.cons_inv hp) h1.2 h2.2 hnd.2]

/-! ### The leaderboard reply -/

theorem collect_eq_map (visit : List (Sigma fun _ : String => User)) (acc : List User) :
    visit.foldl (fun arr kv => arr ++ [kv.2]) acc = acc ++ visit.map (fun kv => kv.2) := by
  induction visit generalizing acc with
  | nil => simp
  | cons kv rest ih => simp [ih]

theorem leaderboardMessage_nonempty (sortSlice : (User → User → Bool) → List User → List User)
    (db : DB) (visit : List (Sigma fun _ : String => User)) (hne : db.Users.entries ≠ []) :
    leaderboardMessage sortSlice db visit =
      String.join ((sortSlice byCountDesc (visit.map fun kv => kv.2)).map leaderboardLine) := by
  have hlen : db.Users.entries.length ≠ 0 := by
    simpa [List.length_eq_zero] using hne
  simp only [leaderboardMessage, hlen, if_true, ne_eq, not_false_eq_true, collect_eq_map,
    List.nil_append, String.join, List.foldl_map]

theorem sorted_ranked (sortSlice : (User → User → Bool) → List User → List User)
    (hsort : SortSliceSpec sortSlice) (db : DB) (visit : List (Sigma fun _ : String => User))
    (hvisit : visit.Perm db.Users.entries) :
    (sortSlice byCountDesc (visit.map fun kv => kv.2)).Perm (db.Users.entries.map fun kv => kv.2) ∧
      (sortSlice byCountDesc (visit.map fun kv => kv.2)).Pairwise
        (fun a b => a.Count ≥ b.Count) := by
  obtain ⟨hp, hs⟩ := hsort byCountDesc (visit.map fun kv => kv.2) byCountDesc_strictWeak
  refine ⟨hp.trans (hvisit.map _), hs.imp ?_⟩
  intro a b h
  simp only [byCountDesc, decide_eq_false_iff_not] at h
  omega

theorem join_lines_last (l : List User) (hl : l ≠ []) :
    ∃ pre : List Char, (String.join (l.map leaderboardLine)).data = pre ++ ['\n'] := by
  rcases List.eq_nil_or_concat l with h | ⟨l1, u, rfl⟩
  · exact absurd h hl
  · refine ⟨(String.join (l1.map leaderboardLine)).data ++
      (u.Name ++ ": " ++ sprintD u.Count).data, ?_⟩
    simp only [String.join, List.concat_eq_append, List.map_append, List.foldl_append,
      List.map_cons, List.map_nil, List.foldl_cons, List.foldl_nil, leaderboardLine,
      String.data_append, List.append_assoc]

theorem ne_of_last (s t : String) (pre : List Char) (c d : Char)
    (hs : s.data = pre ++ [c]) (ht : t.data.getLast? = some d) (hcd : c ≠ d) : s ≠ t := by
  intro h
  subst h
  rw [hs] at ht
  simp at ht
  exact hcd ht

theorem perm_map_lift {α β : Type} (f : α → β) (es : List α) (l : List β)
    (h : l.Perm (es.map f)) : ∃ es2 : List α, es2.Perm es ∧ es2.map f = l := by
  induction es generalizing l with
  | nil =>
    refine ⟨[], List.Perm.refl _, ?_⟩
    have := List.perm_nil.1 h
    simp [this]
  | cons e es ih =>
    rw [List.map_cons] at h
    obtain ⟨l1, l2, rfl⟩ := List.append_of_mem (h.mem_iff.2 (List.mem_cons_self _ _))
    have h2 : (l1 ++ l2).Perm (es.map f) := (List.perm_middle.symm.trans h).cons_inv
    obtain ⟨es2, hp, hm⟩ := ih (l1 ++ l2) h2
    obtain ⟨a, b, rfl, ha, hb⟩ := List.map_eq_append_iff.1 hm
    refine ⟨a ++ e :: b, List.perm_middle.trans (hp.cons e), ?_⟩
    simp [ha, hb]

/-- C5: for a store with at least one user the leaderboard reply is the
concatenation of one line "name: count" followed by a newline per record, taken
over an arrangement of the entries of the users map in which every entry occurs
once and counts never increase from a line to the next; for the users A:5, B:9,
C:2 the reply lists B, then A, then C. -/
theorem leaderboard_ranked_lines
    (sortSlice : (User → User → Bool) → List User → List User)
    (hsort : SortSliceSpec sortSlice) (db : DB)
    (visit : List (Sigma fun _ : String => User))
    (hvisit : visit.Perm db.Users.entries) (hne : db.Users.entries ≠ []) :
    (∃ ranked : List (Sigma fun _ : String => User),
        ranked.Perm db.Users.entries ∧
        ranked.Pairwise (fun a b => a.2.Count ≥ b.2.Count) ∧
        leaderboardMessage sortSlice db visit =
          String.join (ranked.map fun kv => kv.2.Name ++ ": " ++ Nat.repr kv.2.Count ++ "\n"))
      ∧ (db.Users = abcUsers →
          leaderboardMessage sortSlice db visit = "B: 9\nA: 5\nC: 2\n") := by
  have hr := sorted_ranked sortSlice hsort db visit hvisit
  have hm := leaderboardMessage_nonempty sortSlice db visit hne
  constructor
  · obtain ⟨ranked, hp, hmap⟩ := perm_map_lift (fun kv : Sigma fun _ : String => User => kv.2)
      db.Users.entries _ hr.1
    refine ⟨ranked, hp, ?_, ?_⟩
    · have h2 := hr.2
      rw [← hmap, List.pairwise_map] at h2
      exact h2
    · rw [hm, ← hmap, List.map_map]
      rfl
  · intro habc
    rw [habc] at hr
    have hnd : ((sortSlice byCountDesc (visit.map fun kv => kv.2)).map User.Count).Nodup :=
      ((hr.1.map User.Count).nodup_iff).2 (by decide)
    have hperm : (abcUsers.entries.map fun kv => kv.2).Perm
        [⟨"B", 9⟩, ⟨"A", 5⟩, ⟨"C", 2⟩] := by
      decide
    have heq := ranked_unique _ [⟨"B", 9⟩, ⟨"A", 5⟩, ⟨"C", 2⟩] (hr.1.trans hperm) hr.2
      (by decide) hnd
    rw [hm, heq]
    decide

/-- The theorem `leaderboard_ranked_lines` on the users A:5, B:9, C:2, visited
in the order C, B, A and sorted by insertion. -/
theorem leaderboard_ranked_lines_witness :
    abcUsers.entries.Perm sampleDB.Users.entries
      ∧ leaderboardMessage insertionSortLessFunc sampleDB abcUsers.entries
        = "B: 9\nA: 5\nC: 2\n" :=
  ⟨List.Perm.refl _,
    (leaderboard_ranked_lines insertionSortLessFunc insertionSortLessFunc_spec sampleDB
      abcUsers.entries (List.Perm.refl _) (by decide)).2 rfl⟩

/-- C6: with no users the leaderboard reply is the fixed sentence; the reply is
never the empty string; and it is the fixed sentence only when the store has no
users. -/
theorem leaderboard_empty_reply
    (sortSlice : (User → User → Bool) → List User → List User)
    (hsort : SortSliceSpec sortSlice) (db : DB)
    (visit : List (Sigma fun _ : String => User))
    (hvisit : visit.Perm db.Users.entries) :
    (db.Users.entries = [] →
        leaderboardMessage sortSlice db visit = "Leaderboard empty, what a nice server!")
      ∧ leaderboardMessage sortSlice db visit ≠ ""
      ∧ (leaderboardMessage sortSlice db visit = "Leaderboard empty, what a nice server!" →
          db.Users.entries = []) := by
  have hempty : db.Users.entries = [] →
      leaderboardMessage sortSlice db visit = "Leaderboard empty, what a nice server!" := by
    intro h
    simp [leaderboardMessage, h]
  have hlast : db.Users.entries ≠ [] →
      ∃ pre : List Char, (leaderboardMessage sortSlice db visit).data = pre ++ ['\n'] := by
    intro hne
    rw [leaderboardMessage_nonempty sortSlice db visit hne]
    apply join_lines_last
    intro hnil
    have hp := (sorted_ranked sortSlice hsort db visit hvisit).1
    rw [hnil] at hp
    have := List.nil_perm.1 hp
    simp at this
    exact hne this
  refine ⟨hempty, ?_, ?_⟩
  · by_cases hne : db.Users.entries = []
    · rw [hempty hne]
      decide
    · obtain ⟨pre, hpre⟩ := hlast hne
      intro h
      rw [h] at hpre
      simp at hpre
  · intro h
    by_contra hne
    obtain ⟨pre, hpre⟩ := hlast hne
    exact ne_of_last _ _ pre '\n' '!' hpre (by decide) (by decide) h

/-- The theorem `leaderboard_empty_reply` on a store without users. -/
theorem leaderboard_empty_reply_witness :
    leaderboardMessage insertionSortLessFunc { sampleDB with Users := ∅ } []
      = "Leaderboard empty, what a nice server!" :=
  (leaderboard_empty_reply insertionSortLessFunc insertionSortLessFunc_spec
    { sampleDB with Users := ∅ } [] (List.Perm.refl _)).1 rfl

theorem interactionCreate_store (sortSlice : (User → User → Bool) → List User → List User)
    (db : DB) (i : InteractionCreate) (visit : List (Sigma fun _ : String => User))
    (out : DB × List Effect) (h : interactionCreate sortSlice db i visit = some out) :
    out.1 = db := by
  unfold interactionCreate at h
  split at h
  · unfold countCommand at h
    split at h
    · simp only [Option.some.injEq] at h
      rw [← h]
    · simp at h
  · split at h
    · simp only [Option.some.injEq] at h
      rw [← h]
      rfl
    · simp only [Option.some.injEq] at h
      rw [← h]

theorem interactionCreate_member (sortSlice : (User → User → Bool) → List User → List User)
    (db : DB) (i : InteractionCreate) (visit : List (Sigma fun _ : String => User))
    (m : String) (hm : i.Member = some m) :
    ∃ effects, interactionCreate sortSlice db i visit = some (db, effects) := by
  have hself : ∃ reply, countSelfMessage db i.Member = some reply := by
    rw [hm]
    cases hl : db.Users.lookup m with
    | none => exact ⟨"You've never said it!", by simp [countSelfMessage, hl]⟩
    | some data =>
      exact ⟨"You've said the magic word " ++ sprintD data.Count ++ " times",
        by simp [countSelfMessage, hl]⟩
  have hcount : ∃ reply, countMessage db i = some reply := by
    unfold countMessage
    split
    · split
      · exact ⟨_, rfl⟩
      · exact hself
    · exact hself
  unfold interactionCreate
  split
  · obtain ⟨reply, hreply⟩ := hcount
    exact ⟨[Effect.respond reply], by simp [countCommand, hreply]⟩
  · split
    · exact ⟨_, rfl⟩
    · exact ⟨_, rfl⟩

theorem leaderboardMessage_visit_irrelevant
    (sortSlice : (User → User → Bool) → List User → List User)
    (hsort : SortSliceSpec sortSlice) (db : DB)
    (visit1 visit2 : List (Sigma fun _ : String => User))
    (hvisit1 : visit1.Perm db.Users.entries) (hvisit2 : visit2.Perm db.Users.entries)
    (hdistinct : (db.Users.entries.map fun kv => kv.2.Count).Nodup) :
    leaderboardMessage sortSlice db visit1 = leaderboardMessage sortSlice db visit2 := by
  by_cases hne : db.Users.entries = []
  · simp [leaderboardMessage, hne]
  · rw [leaderboardMessage_nonempty sortSlice db visit1 hne,
      leaderboardMessage_nonempty sortSlice db visit2 hne]
    have h1 := sorted_ranked sortSlice hsort db visit1 hvisit1
    have h2 := sorted_ranked sortSlice hsort db visit2 hvisit2
    have hnd : ((sortSlice byCountDesc (visit1.map fun kv => kv.2)).map User.Count).Nodup := by
      refine ((h1.1.map User.Count).nodup_iff).2 ?_
      simpa [List.map_map, Function.comp_def] using hdistinct
    rw [ranked_unique _ _ (h1.1.trans h2.1.symm) h1.2 h2.2 hnd]

/-- C7, amended: for a user without a record the `count` command with that
user as option, from any invoker, and the `count` command without option,
invoked by that user as a guild member, answer with the fixed sentence of the
variant and return the store as it was; a command that returns leaves the store
as it was, and a command invoked by a guild member returns; the outcome of a
command other than `leaderboard` is fixed by the store and the invocation, and
so is the outcome of `leaderboard` when no two records have the same count,
whatever the order in which the map is visited. -/
theorem commands_read_only
    (sortSlice : (User → User → Bool) → List User → List User)
    (hsort : SortSliceSpec sortSlice) (db : DB) (i : InteractionCreate)
    (visit1 visit2 : List (Sigma fun _ : String => User))
    (hvisit1 : visit1.Perm db.Users.entries) (hvisit2 : visit2.Perm db.Users.entries) :
    (∀ (id : String) (member : Option String), db.Users.lookup id = none →
        interactionCreate sortSlice db
            ⟨"count", [⟨ApplicationCommandOptionUser, id⟩], member⟩ visit1
          = some (db, [Effect.respond "The specified user has never said it!"])
        ∧ interactionCreate sortSlice db ⟨"count", [], some id⟩ visit1
          = some (db, [Effect.respond "You've never said it!"]))
      ∧ (∀ out, interactionCreate sortSlice db i visit1 = some out → out.1 = db)
      ∧ (∀ m, i.Member = some m →
          ∃ effects, interactionCreate sortSlice db i visit1 = some (db, effects))
      ∧ (i.Name ≠ "leaderboard" →
          interactionCreate sortSlice db i visit1 = interactionCreate sortSlice db i visit2)
      ∧ ((db.Users.entries.map fun kv => kv.2.Count).Nodup →
          interactionCreate sortSlice db i visit1 = interactionCreate sortSlice db i visit2) := by
  refine ⟨?_, interactionCreate_store sortSlice db i visit1,
    interactionCreate_member sortSlice db i visit1, ?_, ?_⟩
  · intro id member hnone
    simp [interactionCreate, countCommand, countMessage, countSpecifiedMessage,
      countSelfMessage, hnone]
  · intro hname
    simp [interactionCreate, hname]
  · intro hdistinct
    simp only [interactionCreate, leaderboardCommand,
      leaderboardMessage_visit_irrelevant sortSlice hsort db visit1 visit2 hvisit1 hvisit2
        hdistinct]

/-- The theorem `commands_read_only` on the users A:5, B:9, C:2: user `9` has no
record and invokes `count` as a guild member. -/
theorem commands_read_only_witness :
    interactionCreate insertionSortLessFunc sampleDB ⟨"count", [], some "9"⟩ abcUsers.entries
      = some (sampleDB, [Effect.respond "You've never said it!"]) :=
  ((commands_read_only insertionSortLessFunc insertionSortLessFunc_spec sampleDB
    ⟨"count", [], some "9"⟩ abcUsers.entries abcUsers.entries (List.Perm.refl _)
    (List.Perm.refl _)).1 "9" (some "9") (by decide)).2

/-- C7 as stated fails: with two users of equal count the `leaderboard` command,
repeated on the same store, answers differently when the map is visited in a
different order. -/
theorem leaderboard_reply_varies_on_ties :
    SortSliceSpec insertionSortLessFunc
      ∧ [(⟨"1", ⟨"A", 5⟩⟩ : Sigma fun _ : String => User), ⟨"2", ⟨"B", 5⟩⟩].Perm
          tieDB.Users.entries
      ∧ [(⟨"2", ⟨"B", 5⟩⟩ : Sigma fun _ : String => User), ⟨"1", ⟨"A", 5⟩⟩].Perm
          tieDB.Users.entries
      ∧ (interactionCreate insertionSortLessFunc tieDB ⟨"leaderboard", [], some "1"⟩
          [⟨"1", ⟨"A", 5⟩⟩, ⟨"2", ⟨"B", 5⟩⟩]).map Prod.snd
        = some [Effect.respond "A: 5\nB: 5\n"]
      ∧ (interactionCreate insertionSortLessFunc tieDB ⟨"leaderboard", [], some "1"⟩
          [⟨"2", ⟨"B", 5⟩⟩, ⟨"1", ⟨"A", 5⟩⟩]).map Prod.snd
        = some [Effect.respond "B: 5\nA: 5\n"] :=
  ⟨insertionSortLessFunc_spec, by decide, by decide, by decide, by decide⟩

/-- C10, amended: for a user with a record, `count` with that user as option,
from any invoker, replies with the name, " said the magic word ", the decimal
count and " times", which contains the name and the count and differs from the
sentence for an absent record; `count` without option, invoked by that user as a
guild member, replies with "You've said the magic word ", the decimal count and
" times", which contains the count and differs from the sentence for an absent
record. -/
theorem count_reply_present (db : DB) (id name : String) (member : Option String)
    (u : User) (h : db.Users.lookup id = some u) :
    (∃ reply,
        countMessage db ⟨name, [⟨ApplicationCommandOptionUser, id⟩], member⟩ = some reply
      ∧ reply = u.Name ++ " said the magic word " ++ Nat.repr u.Count ++ " times"
      ∧ u.Name.data <:+: reply.data
      ∧ (Nat.repr u.Count).data <:+: reply.data
      ∧ reply ≠ "The specified user has never said it!")
    ∧ (∃ reply,
        countMessage db ⟨name, [], some id⟩ = some reply
      ∧ reply = "You've said the magic word " ++ Nat.repr u.Count ++ " times"
      ∧ (Nat.repr u.Count).data <:+: reply.data
      ∧ reply ≠ "You've never said it!") := by
  constructor
  · refine ⟨u.Name ++ " said the magic word " ++ Nat.repr u.Count ++ " times", ?_, rfl,
      ?_, ?_, ?_⟩
    · simp [countMessage, countSpecifiedMessage, h, sprintD]
    · simp only [String.data_append, List.append_assoc]
      exact List.infix_append' [] _ _
    · simp only [String.data_append, List.append_assoc]
      exact ⟨u.Name.data ++ " said the magic word ".data, " times".data, by simp⟩
    · refine ne_of_last _ _
        (u.Name.data ++ " said the magic word ".data ++ (Nat.repr u.Count).data ++ " time".data)
        's' '!' ?_ (by decide) (by decide)
      simp [String.data_append]
  · refine ⟨"You've said the magic word " ++ Nat.repr u.Count ++ " times", ?_, rfl, ?_, ?_⟩
    · simp [countMessage, countSelfMessage, h, sprintD]
    · simp only [String.data_append, List.append_assoc]
      exact ⟨"You've said the magic word ".data, " times".data, by simp⟩
    · refine ne_of_last _ _
        ("You've said the magic word ".data ++ (Nat.repr u.Count).data ++ " time".data)
        's' '!' ?_ (by decide) (by decide)
      simp [String.data_append]

/-- The theorem `count_reply_present` on user `2` of the users A:5, B:9, C:2,
first as the option of an invocation outside a guild, then as invoking guild
member. -/
theorem count_reply_present_witness :
    sampleDB.Users.lookup "2" = some ⟨"B", 9⟩
      ∧ countMessage sampleDB ⟨"count", [⟨ApplicationCommandOptionUser, "2"⟩], none⟩
        = some "B said the magic word 9 times"
      ∧ countMessage sampleDB ⟨"count", [], some "2"⟩
        = some "You've said the magic word 9 times" := by
  obtain ⟨⟨r1, h1, e1, _⟩, r2, h2, e2, _⟩ :=
    count_reply_present sampleDB "2" "count" none ⟨"B", 9⟩ (by decide)
  refine ⟨by decide, ?_, ?_⟩
  · rw [h1, e1]
    decide
  · rw [h2, e2]
    decide

/-- C10 as stated fails: the reply of `count` without option does not contain
the name of the record. -/
theorem count_self_reply_omits_name :
    sampleDB.Users.lookup "2" = some ⟨"B", 9⟩
      ∧ countMessage sampleDB ⟨"count", [], some "2"⟩
        = some "You've said the magic word 9 times"
      ∧ ¬ ("B".data <:+: "You've said the magic word 9 times".data) := by
  decide

/-- C9: a snapshot that is read but does not decode ends startup in the fatal
error, with no store; a snapshot that cannot be read gives, without a fatal
error, the store with an empty, non-nil users map, no words and empty strings; a
snapshot that decodes gives the decoded store, its users map replaced by an
empty one when the decoder left it nil; and whenever startup is not fatal the
users map is not nil, so the handlers have a store to run on. -/
theorem loadStore_outcomes (jsonUnmarshal : String → Except String RawDB)
    (backupErr : Option String) :
    (∀ data err, jsonUnmarshal data = Except.error err →
        loadStore jsonUnmarshal (Except.ok data) backupErr = Startup.fatal err)
      ∧ (∀ err, loadStore jsonUnmarshal (Except.error err) backupErr
          = Startup.loaded ⟨some ∅, [], "", ""⟩ [Effect.logLine err])
      ∧ (∀ data raw, jsonUnmarshal data = Except.ok raw →
          ∃ effects, loadStore jsonUnmarshal (Except.ok data) backupErr
            = Startup.loaded ⟨some (raw.Users.getD ∅), raw.Words, raw.Emoji, raw.Token⟩
                effects)
      ∧ (∀ readFile store effects,
          loadStore jsonUnmarshal readFile backupErr = Startup.loaded store effects →
          ∃ users, store.Users = some users ∧
            store.toDB = some ⟨users, store.Words, store.Emoji, store.Token⟩) := by
  have hmake : ∀ raw : RawDB, ∃ users, (makeUsers raw).Users = some users ∧
      (makeUsers raw).toDB
        = some ⟨users, (makeUsers raw).Words, (makeUsers raw).Emoji, (makeUsers raw).Token⟩ := by
    intro raw
    cases hu : raw.Users with
    | none => exact ⟨∅, by simp [makeUsers, hu], by simp [makeUsers, hu, RawDB.toDB]⟩
    | some m => exact ⟨m, by simp [makeUsers, hu], by simp [makeUsers, hu, RawDB.toDB]⟩
  refine ⟨?_, ?_, ?_, ?_⟩
  · intro data err h
    simp [loadStore, h]
  · intro err
    rfl
  · intro data raw h
    refine ⟨Effect.writeFile "backup.json" data ::
      (match backupErr with
        | some e => [Effect.logLine e]
        | none => []), ?_⟩
    simp only [loadStore, h, makeUsers]
    cases hu : raw.Users <;> cases raw <;> simp_all
  · intro readFile store effects h
    cases readFile with
    | error err =>
      simp only [loadStore, Startup.loaded.injEq] at h
      rw [← h.1]
      exact hmake _
    | ok data =>
      cases hd : jsonUnmarshal data with
      | error err => simp [loadStore, hd] at h
      | ok raw =>
        simp only [loadStore, hd, Startup.loaded.injEq] at h
        rw [← h.1]
        exact hmake _

/-- The theorem `loadStore_outcomes` on a decoder that accepts the empty object
only: other contents are fatal, the empty object gives an empty users map. -/
theorem loadStore_outcomes_witness :
    loadStore sampleUnmarshal (Except.ok "oops") none = Startup.fatal "invalid character"
      ∧ ∃ effects, loadStore sampleUnmarshal (Except.ok "\x7b\x7d") none
          = Startup.loaded ⟨some ∅, [], "", ""⟩ effects :=
  ⟨(loadStore_outcomes sampleUnmarshal none).1 "oops" "invalid character" rfl,
    (loadStore_outcomes sampleUnmarshal none).2.2.1 "\x7b\x7d" RawDB.zero rfl⟩

/-! ### Event sequences -/

theorem step_record (unicodeToLower : Char → Char) (jsonEncode : DB → String)
    (sortSlice : (User → User → Bool) → List User → List User) (db : DB) (e : Event)
    (out : DB × List Effect)
    (hstep : step unicodeToLower jsonEncode sortSlice db e = some out)
    (id : String) (u : User) (h : db.Users.lookup id = some u) :
    ∃ u2, out.1.Users.lookup id = some u2 ∧
      (u2.Count = u.Count ∨ u2.Count = (u.Count + 1) % 2 ^ 64) ∧
      (u.Count < 2 ^ 64 - 1 → u.Count ≤ u2.Count) := by
  cases e with
  | command i visit =>
    refine ⟨u, ?_, Or.inl rfl, fun _ => Nat.le_refl _⟩
    simp only [step] at hstep
    rw [interactionCreate_store sortSlice db i visit out hstep]
    exact h
  | message i reactErr writeErr =>
    simp only [step, Option.some.injEq] at hstep
    rw [← hstep]
    by_cases hm : i.Author.Bot = true ∨ i.Author.System = true ∨
      ¬ ∃ w ∈ db.Words, (stringsToLower unicodeToLower w).data <:+:
          (stringsToLower unicodeToLower i.Content).data
    · rw [messageCreate_of_noMatch unicodeToLower jsonEncode reactErr writeErr db i hm]
      exact ⟨u, h, Or.inl rfl, fun _ => Nat.le_refl _⟩
    · have hbot : i.Author.Bot = false := by
        cases hb : i.Author.Bot
        · rfl
        · exact absurd (Or.inl hb) hm
      have hsys : i.Author.System = false := by
        cases hb : i.Author.System
        · rfl
        · exact absurd (Or.inr (Or.inl hb)) hm
      have hmatch : ∃ w ∈ db.Words, (stringsToLower unicodeToLower w).data <:+:
          (stringsToLower unicodeToLower i.Content).data := by
        by_contra hno
        exact hm (Or.inr (Or.inr hno))
      rw [messageCreate_of_match unicodeToLower jsonEncode reactErr writeErr db i hbot hsys
        hmatch, onMatch_fst]
      by_cases hid : id = i.Author.ID
      · subst hid
        refine ⟨_, AList.lookup_insert _, ?_, ?_⟩
        · right
          simp [bumpUser_eq, h, uint64Size]
        · intro hlt
          simp only [bumpUser_eq, h, Option.map_some', Option.getD_some, uint64Size]
          omega
      · refine ⟨u, ?_, Or.inl rfl, fun _ => Nat.le_refl _⟩
        simp only
        rw [AList.lookup_insert_ne hid]
        exact h

theorem trace_cons (unicodeToLower : Char → Char) (jsonEncode : DB → String)
    (sortSlice : (User → User → Bool) → List User → List User) (db : DB) (es : List Event) :
    ∃ rest, trace unicodeToLower jsonEncode sortSlice db es = db :: rest := by
  cases es with
  | nil => exact ⟨[], rfl⟩
  | cons e es =>
    simp only [trace]
    split
    · exact ⟨_, rfl⟩
    · exact ⟨[], rfl⟩

/-- C4, amended: along every sequence of events from every store, a record that
is present stays present, and from one store to the next its count stays the
same or becomes the count plus one modulo 2^64; so it does not decrease from
any count below 2^64-1. -/
theorem count_never_decreases_below_max (unicodeToLower : Char → Char)
    (jsonEncode : DB → String)
    (sortSlice : (User → User → Bool) → List User → List User) (db : DB)
    (es : List Event) (id : String) :
    List.Chain'
      (fun d d2 : DB => ∀ u, d.Users.lookup id = some u →
        ∃ u2, d2.Users.lookup id = some u2 ∧
          (u2.Count = u.Count ∨ u2.Count = (u.Count + 1) % 2 ^ 64) ∧
          (u.Count < 2 ^ 64 - 1 → u.Count ≤ u2.Count))
      (trace unicodeToLower jsonEncode sortSlice db es) := by
  induction es generalizing db with
  | nil => simp [trace]
  | cons e es ih =>
    simp only [trace]
    cases hstep : step unicodeToLower jsonEncode sortSlice db e with
    | none => simp
    | some out =>
      obtain ⟨rest, hrest⟩ := trace_cons unicodeToLower jsonEncode sortSlice out.1 es
      have hchain := ih out.1
      simp only
      rw [hrest] at hchain ⊢
      exact List.Chain'.cons
        (fun u hu => step_record unicodeToLower jsonEncode sortSlice db e out hstep id u hu)
        hchain

/-- C4 as stated fails: a matching message of a user whose count is 2^64-1
brings the count down to 0. -/
theorem count_wraps_at_max :
    trace Char.toLower sampleEncode insertionSortLessFunc fullDB
        [Event.message sampleMessage none none]
      = [fullDB, (messageCreate Char.toLower sampleEncode none none fullDB sampleMessage).1]
    ∧ countOf fullDB "1" = some 18446744073709551615
    ∧ countOf (messageCreate Char.toLower sampleEncode none none fullDB sampleMessage).1 "1"
        = some 0 :=
  ⟨rfl, by decide, by decide⟩

end WordCounterBot
